import Mathlib

/-!
Shallow embedding of the retrieval/caching layer of the CV-Assistant backend
(src/backend/boundary/databases/vdb/engine.py and the batch context fetcher in
src/backend/core/pipelines/cv_analysis/flow/document_processing_flow.py).

The module-level Python globals `_embedding_cache`, `_client_cache`,
`_query_cache` and `_prewarmed` become fields of an explicit state `GState`
threaded through every operation.  The external pieces (HuggingFace model
loading, the PGVector store, `os.getenv`) are abstracted into an environment
`Env` of oracle functions; Python exceptions become `Except` results that also
return the (possibly mutated) global state, matching the fact that an escaping
Python exception leaves already-performed global mutations in place.
-/

set_option autoImplicit false

namespace Vdb

/-- A langchain Document / query result: page content plus a metadata map. -/
structure Doc where
  content : String
  metadata : List (String × String)
deriving DecidableEq

/-- Input record for insert_documents: a dict with content and optional metadata. -/
structure DocInput where
  content : String
  metadata : Option (List (String × String))
deriving DecidableEq

/-- The list comprehension in insert_documents: Document(page_content=doc[content], metadata=doc.get(metadata, \x7b\x7d)). -/
def toDocument (d : DocInput) : Doc :=
  { content := d.content, metadata := d.metadata.getD [] }

/-- A loaded HuggingFaceEmbeddings instance.  The id field is an allocation
counter so that object identity (the same handle versus a freshly loaded one)
is expressible. -/
structure Handle where
  id : Nat
  modelName : String
deriving DecidableEq

/-- A constructed PGVector store handle, as built by _ensure_vector_store. -/
structure PGV where
  embeddings : Handle
  collection_name : String
  connection : String
deriving DecidableEq

/-- A LangchainPgVectorClient object.  The Python attribute _vector_store is
modelled as the field vector_store; None becomes Option.none. -/
structure Client where
  connection_url : String
  async_connection_url : String
  collection_name : String
  embeddings : Handle
  vector_store : Option PGV
deriving DecidableEq

/-- Errors raised by the external collaborators: model loading and store
connection (the ModelLoadError / StoreConnectionError of the spec). -/
inductive VdbError where
  | modelLoadError (name : String)
  | storeConnectionError
deriving DecidableEq

/-- The process-wide mutable state: the four module-level caches of engine.py,
the contents of the external vector store, and instrumentation counters
(allocation counter, load attempts, connection attempts, similarity-search
calls, warmup embedding calls). -/
structure GState where
  embCache : List (String × Handle)
  clientCache : List (String × Client)
  queryCache : List (String × List Doc)
  prewarmed : Bool
  store : List (String × List Doc)
  nextId : Nat
  loadAttempts : List String
  connectAttempts : Nat
  searchCalls : Nat
  embedCalls : Nat
deriving DecidableEq

/-- The empty initial state: all caches empty, nothing prewarmed. -/
def initState : GState :=
  { embCache := [], clientCache := [], queryCache := [], prewarmed := false,
    store := [], nextId := 0, loadAttempts := [], connectAttempts := 0,
    searchCalls := 0, embedCalls := 0 }

/-- Oracles for the external world: whether a given load / connection attempt
succeeds, the add_documents effect on the store contents, and the
similarity_search results as a function of store contents, collection, query
text and k. -/
structure Env where
  loadOk : String → Nat → Bool
  connectOk : Nat → Bool
  add : List (String × List Doc) → String → List Doc → Option (List String) → List (String × List Doc)
  search : List (String × List Doc) → String → String → Nat → List Doc

/-- Python dict lookup on an association list (first binding wins). -/
def alookup {β : Type} : List (String × β) → String → Option β
  | [], _ => none
  | (k, v) :: t, key => if k = key then some v else alookup t key

/-- Python dict assignment on an association list: overwrite the first binding
for the key, or append a new one. -/
def aset {β : Type} : List (String × β) → String → β → List (String × β)
  | [], key, v => [(key, v)]
  | (k, w) :: t, key, v => if k = key then (key, v) :: t else (k, w) :: aset t key v

/-- The hard-coded default embedding model name of engine.py. -/
def defaultModel : String := "sentence-transformers/all-MiniLM-L6-v2"

/-- The query cache key string built in LangchainPgVectorClient.query:
f"\x7bself.collection_name\x7d:\x7bquery\x7d:\x7bk\x7d". -/
def qkey (collection_name q : String) (k : Nat) : String :=
  collection_name ++ ":" ++ q ++ ":" ++ toString k

/-- The client cache key string built in get_vector_client:
f"\x7bcollection_name\x7d:\x7bconnection_url\x7d". -/
def ckey (collection_name connection_url : String) : String :=
  collection_name ++ ":" ++ connection_url

/-- Fuel-indexed scanner for pyReplace: replace each leftmost occurrence of
pat, scanning left to right; the fuel is the input length, which bounds the
number of steps. -/
def replaceGo (pat rep : List Char) : Nat → List Char → List Char
  | _, [] => []
  | 0, l => l
  | Nat.succ fuel, c :: rest =>
      if pat ≠ [] ∧ pat.isPrefixOf (c :: rest) then
        rep ++ replaceGo pat rep fuel (List.drop pat.length (c :: rest))
      else c :: replaceGo pat rep fuel rest

/-- Python str.replace(pat, rep): replace every non-overlapping leftmost
occurrence of pat by rep (the empty-pattern corner case never arises in the
source, which always passes the literal prefix postgresql://). -/
def pyReplace (s pat rep : String) : String :=
  { data := replaceGo pat.data rep.data s.data.length s.data }

/-- HuggingFaceEmbeddings(model=name): a fallible external load.  Every
invocation is recorded in loadAttempts; on success a fresh handle is
allocated. -/
def loadModel (env : Env) (name : String) (s : GState) :
    Except VdbError Handle × GState :=
  let attempt := s.loadAttempts.count name
  let s1 := { s with loadAttempts := s.loadAttempts ++ [name] }
  if env.loadOk name attempt then
    (.ok { id := s1.nextId, modelName := name }, { s1 with nextId := s1.nextId + 1 })
  else
    (.error (.modelLoadError name), s1)

/-- LangchainPgVectorClient.__init__: consult _embedding_cache, loading and
caching the model on a miss (an exception from the load leaves the cache
untouched, since the dict assignment never happens), then build the client
object with a lazily uninitialized vector store. -/
def clientInit (env : Env) (connection_url collection_name model_name : String)
    (s : GState) : Except VdbError Client × GState :=
  match alookup s.embCache model_name with
  | some h =>
      (.ok { connection_url := connection_url,
             async_connection_url := pyReplace connection_url "postgresql://" "postgresql+asyncpg://",
             collection_name := collection_name,
             embeddings := h,
             vector_store := none }, s)
  | none =>
      match loadModel env model_name s with
      | (.error e, s1) => (.error e, s1)
      | (.ok h, s1) =>
          (.ok { connection_url := connection_url,
                 async_connection_url := pyReplace connection_url "postgresql://" "postgresql+asyncpg://",
                 collection_name := collection_name,
                 embeddings := h,
                 vector_store := none },
           { s1 with embCache := aset s1.embCache model_name h })

/-- LangchainPgVectorClient._ensure_vector_store: on first use construct the
PGVector handle and store it on the client; a construction failure raises and
leaves the client attribute unchanged (the assignment never happens).  The
client is returned in both branches, modelling the mutated self. -/
def ensureVectorStore (env : Env) (c : Client) (s : GState) :
    Except VdbError PGV × Client × GState :=
  match c.vector_store with
  | some vs => (.ok vs, c, s)
  | none =>
      let attempt := s.connectAttempts
      let s1 := { s with connectAttempts := s.connectAttempts + 1 }
      if env.connectOk attempt then
        let vs : PGV := { embeddings := c.embeddings,
                          collection_name := c.collection_name,
                          connection := c.connection_url }
        (.ok vs, { c with vector_store := some vs }, s1)
      else
        (.error .storeConnectionError, c, s1)

/-- LangchainPgVectorClient.insert_documents: map the input dicts to Documents
and forward to add_documents on the lazily initialized store. -/
def insert_documents (env : Env) (c : Client) (docs : List DocInput)
    (ids : Option (List String)) (s : GState) :
    Except VdbError Unit × Client × GState :=
  let documents := docs.map toDocument
  match ensureVectorStore env c s with
  | (.error e, c1, s1) => (.error e, c1, s1)
  | (.ok vs, c1, s1) =>
      (.ok (), c1, { s1 with store := env.add s1.store vs.collection_name documents ids })

/-- LangchainPgVectorClient.query: consult _query_cache first and return the
cached sequence verbatim on a hit; on a miss run similarity_search against the
lazily initialized store, cache the result under the key and return it. -/
def query (env : Env) (c : Client) (q : String) (k : Nat) (s : GState) :
    Except VdbError (List Doc) × Client × GState :=
  let cache_key := qkey c.collection_name q k
  match alookup s.queryCache cache_key with
  | some results => (.ok results, c, s)
  | none =>
      match ensureVectorStore env c s with
      | (.error e, c1, s1) => (.error e, c1, s1)
      | (.ok vs, c1, s1) =>
          let results := env.search s1.store vs.collection_name q k
          (.ok results, c1,
           { s1 with searchCalls := s1.searchCalls + 1,
                     queryCache := aset s1.queryCache cache_key results })

/-- LangchainPgVectorClient.query_batch: loop over the queries, extending
all_results with each query result; an exception aborts the loop and
propagates. -/
def query_batch (env : Env) (c : Client) (queries : List String) (k : Nat)
    (s : GState) : Except VdbError (List Doc) × Client × GState :=
  match queries with
  | [] => (.ok [], c, s)
  | q :: qs =>
      match query env c q k s with
      | (.error e, c1, s1) => (.error e, c1, s1)
      | (.ok results, c1, s1) =>
          match query_batch env c1 qs k s1 with
          | (.error e, c2, s2) => (.error e, c2, s2)
          | (.ok rest, c2, s2) => (.ok (results ++ rest), c2, s2)

/-- get_vector_client: look up _client_cache under the collection:url key,
constructing and caching a LangchainPgVectorClient (with the default model) on
a miss.  The Python default argument connection_url=os.getenv(...) is modelled
by the osEnv oracle consulted when the caller omits the argument. -/
def get_vector_client (env : Env) (osEnv : String → String)
    (collection_name : String) (connection_url? : Option String) (s : GState) :
    Except VdbError Client × GState :=
  let connection_url := connection_url?.getD (osEnv "POSTGRES_CONNECTION_STRING")
  let cache_key := ckey collection_name connection_url
  match alookup s.clientCache cache_key with
  | some c => (.ok c, s)
  | none =>
      match clientInit env connection_url collection_name defaultModel s with
      | (.error e, s1) => (.error e, s1)
      | (.ok c, s1) => (.ok c, { s1 with clientCache := aset s1.clientCache cache_key c })

/-- The model loop of prewarm_models: for each name not yet in
_embedding_cache, load it, cache it, and issue one warmup embed_query call
(counted in embedCalls). -/
def prewarmLoadLoop (env : Env) : List String → GState → Except VdbError Unit × GState
  | [], s => (.ok (), s)
  | m :: ms, s =>
      match alookup s.embCache m with
      | some _ => prewarmLoadLoop env ms s
      | none =>
          match loadModel env m s with
          | (.error e, s1) => (.error e, s1)
          | (.ok h, s1) =>
              prewarmLoadLoop env ms
                { s1 with embCache := aset s1.embCache m h,
                          embedCalls := s1.embedCalls + 1 }

/-- prewarm_models: return immediately when _prewarmed is already set;
otherwise load the given models (default: the one canonical model), then fetch
the cv_documents client via get_vector_client, and only then set _prewarmed. -/
def prewarm_models (env : Env) (osEnv : String → String)
    (models? : Option (List String)) (connection_url? : Option String)
    (s : GState) : Except VdbError Unit × GState :=
  if s.prewarmed then (.ok (), s)
  else
    let models := models?.getD [defaultModel]
    let connection_url := connection_url?.getD (osEnv "POSTGRES_CONNECTION_STRING")
    match prewarmLoadLoop env models s with
    | (.error e, s1) => (.error e, s1)
    | (.ok _, s1) =>
        match get_vector_client env osEnv "cv_documents" (some connection_url) s1 with
        | (.error e, s2) => (.error e, s2)
        | (.ok _, s2) => (.ok (), { s2 with prewarmed := true })

/-- fetch_context of document_processing_flow.py: get the cached cv_documents
client (default connection url) and run query_batch with k = 5.  In Python the
client fetched from the cache is mutated in place by the lazy store
initialization; the value embedding reflects this aliasing by writing the
updated client back under its cache key. -/
def fetch_context (env : Env) (osEnv : String → String) (queries : List String)
    (s : GState) : Except VdbError (List Doc) × GState :=
  match get_vector_client env osEnv "cv_documents" none s with
  | (.error e, s1) => (.error e, s1)
  | (.ok client, s1) =>
      let cache_key := ckey "cv_documents" (osEnv "POSTGRES_CONNECTION_STRING")
      match query_batch env client queries 5 s1 with
      | (.error e, c2, s2) =>
          (.error e, { s2 with clientCache := aset s2.clientCache cache_key c2 })
      | (.ok results, c2, s2) =>
          (.ok results, { s2 with clientCache := aset s2.clientCache cache_key c2 })

/-- The entry points of the module, as invoked by the rest of the repository:
direct client construction, registry lookup, prewarming, and the batch context
fetcher. -/
inductive Op where
  | mkClient (url collection model : String)
  | getClient (collection : String) (url? : Option String)
  | prewarm (models? : Option (List String)) (url? : Option String)
  | fetchOp (queries : List String)

/-- State effect of one entry-point invocation. -/
def stepOp (env : Env) (osEnv : String → String) : Op → GState → GState
  | .mkClient url collection model, s => (clientInit env url collection model s).2
  | .getClient collection url?, s => (get_vector_client env osEnv collection url? s).2
  | .prewarm models? url?, s => (prewarm_models env osEnv models? url? s).2
  | .fetchOp qs, s => (fetch_context env osEnv qs s).2

/-- State after a sequence of entry-point invocations. -/
def runOps (env : Env) (osEnv : String → String) : List Op → GState → GState
  | [], s => s
  | op :: ops, s => runOps env osEnv ops (stepOp env osEnv op s)


/-! ### Concrete fixtures used to instantiate the theorems -/

/-- A concrete oracle environment: loads and connections always succeed,
add_documents appends to the per-collection document list, and
similarity_search returns one document naming the collection and the query
text (so that results computed for different collections are observably
different). -/
def cEnv : Env :=
  { loadOk := fun _ _ => true, connectOk := fun _ => true,
    add := fun st coll docs _ =>
      match alookup st coll with
      | some old => aset st coll (old ++ docs)
      | none => aset st coll docs,
    search := fun _ coll q _ => [{ content := coll ++ "|" ++ q, metadata := [] }] }

/-- A concrete process environment holding one connection string. -/
def cOs : String → String := fun _ => "postgresql://db"

/-- A second process environment with a different connection string. -/
def cOsB : String → String := fun _ => "postgresql://other"

/-- A concrete document. -/
def dW : Doc := { content := "python dev", metadata := [] }

/-- A concrete client for collection cv, lazily uninitialized. -/
def cW : Client :=
  { connection_url := "postgresql://db",
    async_connection_url := "postgresql+asyncpg://db",
    collection_name := "cv",
    embeddings := { id := 0, modelName := defaultModel },
    vector_store := none }

/-- A concrete state whose query cache holds one entry for (cv, skills, 2). -/
def sW : GState := { initState with queryCache := [("cv:skills:2", [dW])] }

/-- A client for the colliding collection name a:b. -/
def cColl1 : Client := { cW with collection_name := "a:b" }

/-- A client for collection a. -/
def cColl2 : Client := { cW with collection_name := "a" }

/-- The state after querying (a:b, c, 1) from the empty state: the cache now
holds the key a:b:c:1. -/
def sColl : GState := (query cEnv cColl1 "c" 1 initState).2.2

/-- The result sequence of a single query call, with a raised exception read
as the empty sequence; used to state the batch-concatenation property. -/
def queryResults (env : Env) (c : Client) (q : String) (k : Nat) (s : GState) : List Doc :=
  match (query env c q k s).1 with
  | .ok rs => rs
  | .error _ => []

/-- The handle cached for the default model in the fixtures. -/
def hW : Handle := { id := 0, modelName := defaultModel }

/-- A state whose embedding cache already holds the default model. -/
def sEmb : GState := { initState with embCache := [(defaultModel, hW)] }

/-- An oracle environment whose first load attempt per model and first
connection attempt fail, with every retry succeeding. -/
def fEnv : Env := { cEnv with loadOk := fun _ n => decide (1 ≤ n), connectOk := fun n => decide (1 ≤ n) }

/-- The client that get_vector_client registers for cv_documents under the
fixture connection string. -/
def cvClient : Client :=
  { connection_url := "postgresql://db",
    async_connection_url := "postgresql+asyncpg://db",
    collection_name := "cv_documents",
    embeddings := hW,
    vector_store := none }

/-- The state after fetch_context on the empty list from the empty state: the
default client is now registered. -/
def sCli : GState := (fetch_context cEnv cOs [] initState).2

/-- The client get_vector_client creates for collection x in the fixtures. -/
def xClient : Client :=
  { connection_url := "postgresql://db",
    async_connection_url := "postgresql+asyncpg://db",
    collection_name := "x",
    embeddings := hW,
    vector_store := none }

/-- Invariant: every cached embedding handle is registered under its own model
name. -/
def EmbOk (s : GState) : Prop :=
  ∀ m h, alookup s.embCache m = some h → h.modelName = m

/-- Invariant: every client in the registry carries the default embedding
model. -/
def ClientsOk (s : GState) : Prop :=
  ∀ key c, alookup s.clientCache key = some c → c.embeddings.modelName = defaultModel

/-! ### Association list lemmas (Python dict semantics) -/

theorem alookup_aset_self {β : Type} (l : List (String × β)) (k : String) (v : β) :
    alookup (aset l k v) k = some v := by
  induction l with
  | nil => simp [aset, alookup]
  | cons p t ih =>
      obtain ⟨k0, w⟩ := p
      by_cases h : k0 = k
      · simp [aset, h, alookup]
      · simp [aset, h, alookup, ih]

theorem alookup_aset_ne {β : Type} (l : List (String × β)) (k k' : String) (v : β)
    (h : k' ≠ k) : alookup (aset l k v) k' = alookup l k' := by
  have hk : ¬k = k' := fun e => h e.symm
  induction l with
  | nil => simp [aset, alookup, hk]
  | cons p t ih =>
      obtain ⟨k0, w⟩ := p
      by_cases h0 : k0 = k
      · subst h0
        simp [aset, alookup, hk]
      · simp [aset, h0, alookup, ih]

theorem aset_of_alookup_eq {β : Type} (l : List (String × β)) (k : String) (v : β)
    (h : alookup l k = some v) : aset l k v = l := by
  induction l with
  | nil => simp [alookup] at h
  | cons p t ih =>
      obtain ⟨k0, w⟩ := p
      by_cases h0 : k0 = k
      · subst h0
        simp [alookup] at h
        simp [aset, h]
      · simp [alookup, h0] at h
        simp [aset, h0, ih h]

/-! ### Effect lemmas for the primitive operations -/

theorem ensure_eff (env : Env) (c : Client) (s : GState) (r : Except VdbError PGV)
    (c1 : Client) (s1 : GState) (h : ensureVectorStore env c s = (r, c1, s1)) :
    c1.collection_name = c.collection_name ∧ c1.embeddings = c.embeddings ∧
    c1.connection_url = c.connection_url ∧ s1.queryCache = s.queryCache ∧
    s1.store = s.store ∧ s1.embCache = s.embCache ∧ s1.clientCache = s.clientCache ∧
    s1.loadAttempts = s.loadAttempts ∧ s1.searchCalls = s.searchCalls := by
  unfold ensureVectorStore at h
  split at h
  · injection h with h1 h23
    injection h23 with h2 h3
    subst h2; subst h3
    simp
  · by_cases hc : env.connectOk s.connectAttempts = true
    · simp only [hc, if_true] at h
      injection h with h1 h23
      injection h23 with h2 h3
      subst h2; subst h3
      simp
    · simp only [Bool.not_eq_true] at hc
      simp only [hc, Bool.false_eq_true, if_false] at h
      injection h with h1 h23
      injection h23 with h2 h3
      subst h2; subst h3
      simp

/-! ### Claim C1: the query cache contract -/

/-- C1: LangchainPgVectorClient.query consults the process-wide query cache
first: on a hit it returns the cached sequence verbatim without contacting the
underlying store (state unchanged, no search call); on a miss it performs the
similarity search, stores the result under the key and returns it; hence a
second query with the same (collection, query text, k) and no intervening
operations returns the identical sequence with the state (including the
searchCalls counter) unchanged. -/
theorem query_cache_contract (env : Env) (c : Client) (q : String) (k : Nat) (s : GState) :
    (∀ rs, alookup s.queryCache (qkey c.collection_name q k) = some rs →
      query env c q k s = (.ok rs, c, s)) ∧
    (alookup s.queryCache (qkey c.collection_name q k) = none →
      ∀ vs c2 s2, ensureVectorStore env c s = (.ok vs, c2, s2) →
        query env c q k s =
          (.ok (env.search s2.store vs.collection_name q k), c2,
           { s2 with searchCalls := s2.searchCalls + 1,
                     queryCache := aset s2.queryCache (qkey c.collection_name q k)
                       (env.search s2.store vs.collection_name q k) })) ∧
    (∀ rs c2 s2, query env c q k s = (.ok rs, c2, s2) →
      query env c2 q k s2 = (.ok rs, c2, s2)) := by
  refine ⟨?_, ?_, ?_⟩
  · intro rs h
    simp [query, h]
  · intro h vs c2 s2 hens
    simp [query, h, hens]
  · intro rs c2 s2 h
    cases hlook : alookup s.queryCache (qkey c.collection_name q k) with
    | some results =>
        simp only [query, hlook] at h
        simp only [Prod.mk.injEq, Except.ok.injEq] at h
        obtain ⟨h1, h2, h3⟩ := h
        subst h1; subst h2; subst h3
        simp [query, hlook]
    | none =>
        simp only [query, hlook] at h
        rcases hens : ensureVectorStore env c s with ⟨e | vs, c3, s3⟩
        · simp [hens] at h
        · simp only [hens] at h
          simp only [Prod.mk.injEq, Except.ok.injEq] at h
          obtain ⟨h1, h2, h3⟩ := h
          subst h1; subst h2; subst h3
          obtain ⟨hcoll, -⟩ := ensure_eff env c s _ _ _ hens
          simp [query, hcoll, alookup_aset_self]

/-- Witness for C1 at a concrete cached entry. -/
theorem query_cache_contract_witness :
    query cEnv cW "skills" 2 sW = (.ok [dW], cW, sW) :=
  (query_cache_contract cEnv cW "skills" 2 sW).1 [dW] (by decide)

/-! ### Claim C2: insert_documents and the query cache -/

/-- Helper: insert_documents leaves _query_cache untouched on every path. -/
theorem insert_documents_queryCache_eq (env : Env) (c : Client) (docs : List DocInput)
    (ids : Option (List String)) (s : GState) (r : Except VdbError Unit)
    (c2 : Client) (s2 : GState) (h : insert_documents env c docs ids s = (r, c2, s2)) :
    s2.queryCache = s.queryCache := by
  rcases hens : ensureVectorStore env c s with ⟨e | vs, c3, s3⟩
  · simp only [insert_documents, hens] at h
    simp only [Prod.mk.injEq] at h
    obtain ⟨-, -, h3⟩ := h
    subst h3
    exact (ensure_eff env c s _ _ _ hens).2.2.2.1
  · simp only [insert_documents, hens] at h
    simp only [Prod.mk.injEq] at h
    obtain ⟨-, -, h3⟩ := h
    subst h3
    simpa using (ensure_eff env c s _ _ _ hens).2.2.2.1

/-- C2: insert_documents never reads or modifies the query-result cache: the
queryCache field is identical before and after every insert_documents call
(also when it raises), so a query whose result was cached before the insert
still returns the old cached sequence verbatim when repeated with identical
collection, query text and k after the insert. -/
theorem insert_never_touches_query_cache (env : Env) (c : Client)
    (docs : List DocInput) (ids : Option (List String)) (s : GState) :
    (∀ r c2 s2, insert_documents env c docs ids s = (r, c2, s2) →
      s2.queryCache = s.queryCache) ∧
    (∀ q k rs (cq : Client) r c2 s2,
      alookup s.queryCache (qkey cq.collection_name q k) = some rs →
      insert_documents env c docs ids s = (r, c2, s2) →
      query env cq q k s2 = (.ok rs, cq, s2)) := by
  constructor
  · intro r c2 s2 h
    exact insert_documents_queryCache_eq env c docs ids s r c2 s2 h
  · intro q k rs cq r c2 s2 hl hins
    have hq : s2.queryCache = s.queryCache :=
      insert_documents_queryCache_eq env c docs ids s r c2 s2 hins
    have hl2 : alookup s2.queryCache (qkey cq.collection_name q k) = some rs := by
      rw [hq]; exact hl
    simp [query, hl2]

/-- Witness for C2: insert a Rust document after (cv, skills, 2) was cached;
the repeated query still returns the stale cached sequence. -/
theorem insert_never_touches_query_cache_witness :
    query cEnv cW "skills" 2
        (insert_documents cEnv cW [{ content := "Rust developer", metadata := none }] none sW).2.2 =
      (.ok [dW], cW,
        (insert_documents cEnv cW [{ content := "Rust developer", metadata := none }] none sW).2.2) :=
  (insert_never_touches_query_cache cEnv cW
      [{ content := "Rust developer", metadata := none }] none sW).2
    "skills" 2 [dW] cW _ _ _ (by decide) rfl

/-! ### Claim C3: cache keying -/

/-- C3 counterexample: the cache key is the rendered string
collection:query:k, and distinct triples can collide.  After querying
(collection "a:b", text "c", k 1), a query for (collection "a", text "b:c",
k 1) returns the sequence stored for the first triple verbatim (state
unchanged, no similarity search), whereas a real search for the second triple
would return a different document. -/
theorem query_cache_key_collision :
    qkey "a:b" "c" 1 = qkey "a" "b:c" 1 ∧
    (query cEnv cColl1 "c" 1 initState).1 = .ok [{ content := "a:b|c", metadata := [] }] ∧
    query cEnv cColl2 "b:c" 1 sColl = (.ok [{ content := "a:b|c", metadata := [] }], cColl2, sColl) ∧
    cEnv.search sColl.store "a" "b:c" 1 = [{ content := "a|b:c", metadata := [] }] ∧
    ({ content := "a:b|c", metadata := [] } : Doc) ≠ { content := "a|b:c", metadata := [] } := by
  refine ⟨by decide, by rfl, by rfl, by rfl, by decide⟩

/-- C3 amended: entries are keyed by the rendered string collection:query:k,
so two triples are independent exactly when their rendered keys differ: a
successful query of one triple leaves the cache entry under the other key
untouched; in particular (cv_documents, skills, 2) and (cv_documents, skills,
5) render to different keys and are cached independently. -/
theorem query_cache_keying (env : Env) (c1 c2 : Client) (q1 q2 : String)
    (k1 k2 : Nat) (s : GState) (rs : List Doc) (c1' : Client) (s' : GState)
    (hne : qkey c1.collection_name q1 k1 ≠ qkey c2.collection_name q2 k2)
    (hq : query env c1 q1 k1 s = (.ok rs, c1', s')) :
    alookup s'.queryCache (qkey c2.collection_name q2 k2) =
      alookup s.queryCache (qkey c2.collection_name q2 k2) ∧
    qkey "cv_documents" "skills" 2 ≠ qkey "cv_documents" "skills" 5 := by
  refine ⟨?_, by decide⟩
  cases hlook : alookup s.queryCache (qkey c1.collection_name q1 k1) with
  | some results =>
      simp only [query, hlook] at hq
      simp only [Prod.mk.injEq, Except.ok.injEq] at hq
      obtain ⟨-, -, h3⟩ := hq
      subst h3
      rfl
  | none =>
      simp only [query, hlook] at hq
      rcases hens : ensureVectorStore env c1 s with ⟨e | vs, c3, s3⟩
      · simp [hens] at hq
      · simp only [hens] at hq
        simp only [Prod.mk.injEq, Except.ok.injEq] at hq
        obtain ⟨-, -, h3⟩ := hq
        subst h3
        have hqc : s3.queryCache = s.queryCache := (ensure_eff env c1 s _ _ _ hens).2.2.2.1
        simp only [hqc]
        exact alookup_aset_ne s.queryCache (qkey c1.collection_name q1 k1)
          (qkey c2.collection_name q2 k2) _ (Ne.symm hne)

/-- Witness for C3 amended, at the colliding-free pair ((a:b, c, 1), (cv, x, 2)). -/
theorem query_cache_keying_witness :
    alookup (query cEnv cColl1 "c" 1 initState).2.2.queryCache (qkey cW.collection_name "x" 2) =
      alookup initState.queryCache (qkey cW.collection_name "x" 2) ∧
    qkey "cv_documents" "skills" 2 ≠ qkey "cv_documents" "skills" 5 :=
  query_cache_keying cEnv cColl1 cW "c" "x" 1 2 initState _ _ _ (by decide) rfl

/-! ### Claim C4: query_batch is the ordered concatenation of single queries -/

theorem string_append_cancel_right (a b c : String) (h : a ++ c = b ++ c) : a = b := by
  have hd : a.data ++ c.data = b.data ++ c.data := by
    have := congrArg String.data h
    simpa [String.data_append] using this
  exact String.ext (List.append_cancel_right hd)

theorem string_append_cancel_left (a b c : String) (h : a ++ b = a ++ c) : b = c := by
  have hd : a.data ++ b.data = a.data ++ c.data := by
    have := congrArg String.data h
    simpa [String.data_append] using this
  exact String.ext (List.append_cancel_left hd)

/-- Within one collection and one k, the rendered cache key determines the
query text (the k segment carries no colon, so the middle segment is
recoverable). -/
theorem qkey_inj (coll q1 q2 : String) (k : Nat)
    (h : qkey coll q1 k = qkey coll q2 k) : q1 = q2 := by
  unfold qkey at h
  have h1 := string_append_cancel_right _ _ _ h
  have h2 := string_append_cancel_right _ _ _ h1
  exact string_append_cancel_left _ _ _ h2

/-- Once _ensure_vector_store has succeeded, the handle is stored on the
client and every later call returns it immediately, with no state change. -/
theorem ensure_ok_stable (env : Env) (c : Client) (s : GState) (vs : PGV)
    (c3 : Client) (s3 : GState) (h : ensureVectorStore env c s = (.ok vs, c3, s3)) :
    ∀ s4, ensureVectorStore env c3 s4 = (.ok vs, c3, s4) := by
  intro s4
  have hvs : c3.vector_store = some vs := by
    unfold ensureVectorStore at h
    split at h
    · rename_i vs0 heq
      simp only [Prod.mk.injEq, Except.ok.injEq] at h
      obtain ⟨h1, h2, -⟩ := h
      rw [← h2, heq, h1]
    · by_cases hc : env.connectOk s.connectAttempts = true
      · simp only [hc, if_true] at h
        simp only [Prod.mk.injEq, Except.ok.injEq] at h
        obtain ⟨h1, h2, -⟩ := h
        rw [← h2]
        simp [h1]
      · simp only [Bool.not_eq_true] at hc
        simp only [hc, Bool.false_eq_true, if_false] at h
        simp at h
  simp [ensureVectorStore, hvs]

/-- Query leaves the client identity fields, the store contents and the other
caches untouched. -/
theorem query_eff (env : Env) (c : Client) (q : String) (k : Nat) (s : GState)
    (r : Except VdbError (List Doc)) (c' : Client) (s' : GState)
    (h : query env c q k s = (r, c', s')) :
    c'.collection_name = c.collection_name ∧ c'.embeddings = c.embeddings ∧
    c'.connection_url = c.connection_url ∧ s'.store = s.store ∧
    s'.embCache = s.embCache ∧ s'.clientCache = s.clientCache ∧
    s'.loadAttempts = s.loadAttempts := by
  cases hlook : alookup s.queryCache (qkey c.collection_name q k) with
  | some results =>
      simp only [query, hlook] at h
      simp only [Prod.mk.injEq] at h
      obtain ⟨-, h2, h3⟩ := h
      subst h2; subst h3
      simp
  | none =>
      simp only [query, hlook] at h
      rcases hens : ensureVectorStore env c s with ⟨e | vs, c3, s3⟩
      · simp only [hens] at h
        simp only [Prod.mk.injEq] at h
        obtain ⟨-, h2, h3⟩ := h
        subst h2; subst h3
        obtain ⟨a, b, c4, -, e2, f, g, i, -⟩ := ensure_eff env c s _ _ _ hens
        exact ⟨a, b, c4, e2, f, g, i⟩
      · simp only [hens] at h
        simp only [Prod.mk.injEq] at h
        obtain ⟨-, h2, h3⟩ := h
        subst h2; subst h3
        obtain ⟨a, b, c4, -, e2, f, g, i, -⟩ := ensure_eff env c s _ _ _ hens
        exact ⟨a, b, c4, e2, f, g, i⟩

/-- Query never removes or changes an existing cache entry. -/
theorem query_cache_monotone (env : Env) (c : Client) (q : String) (k : Nat)
    (s : GState) (r : Except VdbError (List Doc)) (c' : Client) (s' : GState)
    (h : query env c q k s = (r, c', s')) (key : String) (rs : List Doc)
    (hl : alookup s.queryCache key = some rs) :
    alookup s'.queryCache key = some rs := by
  cases hlook : alookup s.queryCache (qkey c.collection_name q k) with
  | some results =>
      simp only [query, hlook] at h
      simp only [Prod.mk.injEq] at h
      obtain ⟨-, -, h3⟩ := h
      subst h3
      exact hl
  | none =>
      simp only [query, hlook] at h
      rcases hens : ensureVectorStore env c s with ⟨e | vs, c3, s3⟩
      · simp only [hens] at h
        simp only [Prod.mk.injEq] at h
        obtain ⟨-, -, h3⟩ := h
        subst h3
        rw [(ensure_eff env c s _ _ _ hens).2.2.2.1]
        exact hl
      · simp only [hens] at h
        simp only [Prod.mk.injEq] at h
        obtain ⟨-, -, h3⟩ := h
        subst h3
        have hqc : s3.queryCache = s.queryCache := (ensure_eff env c s _ _ _ hens).2.2.2.1
        have hne : key ≠ qkey c.collection_name q k := by
          intro he
          rw [he, hlook] at hl
          exact Option.noConfusion hl
        show alookup (aset s3.queryCache (qkey c.collection_name q k) _) key = some rs
        rw [alookup_aset_ne _ _ _ _ hne, hqc]
        exact hl

/-- With a fixed k and no intervening insert, a successful query does not
change the observable result of any later query on the same client: the
result of the second query equals what the same query would have returned
from the initial state. -/
theorem query_stable (env : Env) (c : Client) (q1 q2 : String) (k : Nat)
    (s : GState) (rs1 rs2 : List Doc) (c1 c2 : Client) (s1 s2 : GState)
    (h1 : query env c q1 k s = (.ok rs1, c1, s1))
    (h2 : query env c1 q2 k s1 = (.ok rs2, c2, s2)) :
    ∃ c3 s3, query env c q2 k s = (.ok rs2, c3, s3) := by
  cases hlook1 : alookup s.queryCache (qkey c.collection_name q1 k) with
  | some results =>
      simp only [query, hlook1] at h1
      simp only [Prod.mk.injEq, Except.ok.injEq] at h1
      obtain ⟨-, e2, e3⟩ := h1
      subst e2; subst e3
      exact ⟨c2, s2, h2⟩
  | none =>
      simp only [query, hlook1] at h1
      rcases hens : ensureVectorStore env c s with ⟨e | vs, cE, sE⟩
      · simp [hens] at h1
      · simp only [hens] at h1
        simp only [Prod.mk.injEq, Except.ok.injEq] at h1
        obtain ⟨e1, e2, e3⟩ := h1
        subst e2; subst e3
        obtain ⟨hcoll, -, -, hqc, -, -, -, -, -⟩ := ensure_eff env c s _ _ _ hens
        by_cases hk : qkey c.collection_name q2 k = qkey c.collection_name q1 k
        · have hq : q2 = q1 := qkey_inj _ _ _ _ hk
          subst hq
          simp only [query, hcoll, alookup_aset_self] at h2
          simp only [Prod.mk.injEq, Except.ok.injEq] at h2
          obtain ⟨hr, -, -⟩ := h2
          refine ⟨cE, { sE with searchCalls := sE.searchCalls + 1, queryCache := aset sE.queryCache (qkey c.collection_name q2 k) (env.search sE.store vs.collection_name q2 k) }, ?_⟩
          simp only [query, hlook1, hens]
          rw [hr]
        · cases hlook2 : alookup s.queryCache (qkey c.collection_name q2 k) with
          | some r2 =>
              have hupd : alookup
                  (aset sE.queryCache (qkey c.collection_name q1 k)
                    (env.search sE.store vs.collection_name q1 k))
                  (qkey cE.collection_name q2 k) = some r2 := by
                rw [hcoll, alookup_aset_ne _ _ _ _ hk, hqc]
                exact hlook2
              simp only [query, hupd] at h2
              simp only [Prod.mk.injEq, Except.ok.injEq] at h2
              obtain ⟨hr, -, -⟩ := h2
              subst hr
              exact ⟨c, s, by simp [query, hlook2]⟩
          | none =>
              have hstab := ensure_ok_stable env c s vs cE sE hens
              have hupd : alookup
                  (aset sE.queryCache (qkey c.collection_name q1 k)
                    (env.search sE.store vs.collection_name q1 k))
                  (qkey cE.collection_name q2 k) = none := by
                rw [hcoll, alookup_aset_ne _ _ _ _ hk, hqc]
                exact hlook2
              simp only [query, hupd, hstab] at h2
              simp only [Prod.mk.injEq, Except.ok.injEq] at h2
              obtain ⟨hr, -, -⟩ := h2
              refine ⟨cE, { sE with searchCalls := sE.searchCalls + 1, queryCache := aset sE.queryCache (qkey c.collection_name q2 k) (env.search sE.store vs.collection_name q2 k) }, ?_⟩
              simp only [query, hlook2, hens]
              rw [hr]

/-- C4: a successful query_batch(queries, k) returns exactly the concatenation
of the results of query(q, k) for each q in queries, in input order, with no
deduplication (the map keeps duplicated query strings as duplicated blocks),
and the empty input list yields the empty output; moreover each individual
query evaluated from the initial state succeeds with exactly its block. -/
theorem query_batch_concat (env : Env) (c : Client) (qs : List String) (k : Nat)
    (s : GState) (out : List Doc) (c' : Client) (s' : GState)
    (h : query_batch env c qs k s = (.ok out, c', s')) :
    (∀ q ∈ qs, ∃ cq sq, query env c q k s = (.ok (queryResults env c q k s), cq, sq)) ∧
    out = (qs.map (fun q => queryResults env c q k s)).flatten := by
  induction qs generalizing c s out c' s' with
  | nil =>
      simp only [query_batch] at h
      simp only [Prod.mk.injEq, Except.ok.injEq] at h
      obtain ⟨h1, -, -⟩ := h
      subst h1
      simp
  | cons q qs ih =>
      rcases hq : query env c q k s with ⟨rq | rs, c1, s1⟩
      · simp only [query_batch, hq] at h
        simp at h
      · rcases hb : query_batch env c1 qs k s1 with ⟨rb | rest, c2, s2⟩
        · simp only [query_batch, hq, hb] at h
          simp at h
        · simp only [query_batch, hq, hb] at h
          simp only [Prod.mk.injEq, Except.ok.injEq] at h
          obtain ⟨h1, -, -⟩ := h
          obtain ⟨ihmem, iheq⟩ := ih c1 s1 rest c2 s2 hb
          have htrans : ∀ q' ∈ qs,
              ∃ cq sq, query env c q' k s = (.ok (queryResults env c1 q' k s1), cq, sq) := by
            intro q' hmem
            obtain ⟨cq, sq, hqq⟩ := ihmem q' hmem
            exact query_stable env c q q' k s rs _ c1 cq s1 sq hq hqq
          have hres : ∀ q' ∈ qs, queryResults env c q' k s = queryResults env c1 q' k s1 := by
            intro q' hmem
            obtain ⟨cq, sq, hqq⟩ := htrans q' hmem
            simp [queryResults, hqq]
          constructor
          · intro q' hmem
            rcases List.mem_cons.mp hmem with he | hmem'
            · subst he
              exact ⟨c1, s1, by simp [queryResults, hq]⟩
            · obtain ⟨cq, sq, hqq⟩ := htrans q' hmem'
              rw [← hres q' hmem'] at hqq
              exact ⟨cq, sq, hqq⟩
          · subst h1
            simp only [List.map_cons, List.flatten_cons]
            congr 1
            · simp [queryResults, hq]
            · rw [iheq]
              exact congrArg List.flatten
                (List.map_congr_left (fun q' hmem => (hres q' hmem).symm))

/-- Witness for C4: a batch with a duplicated query string concatenates the
per-query blocks in order, the duplicate appearing twice. -/
theorem query_batch_concat_witness :
    (∀ q ∈ ["a", "b", "a"], ∃ cq sq,
      query cEnv cW q 5 initState = (.ok (queryResults cEnv cW q 5 initState), cq, sq)) ∧
    (query_batch cEnv cW ["a", "b", "a"] 5 initState).1 =
      .ok ((["a", "b", "a"].map (fun q => queryResults cEnv cW q 5 initState)).flatten) := by
  have h := query_batch_concat cEnv cW ["a", "b", "a"] 5 initState _ _ _ rfl
  exact ⟨h.1, by rw [show (query_batch cEnv cW ["a", "b", "a"] 5 initState).1 = .ok _ from rfl, h.2]⟩

/-! ### Claim C5: each embedding model is loaded at most once per process -/

theorem count_append_one_ne (l : List String) (a b : String) (h : a ≠ b) :
    (l ++ [a]).count b = l.count b := by
  have h0 : List.count b [a] = 0 := by
    rw [List.count_eq_zero]
    simp only [List.mem_singleton]
    exact fun he => h he.symm
  rw [List.count_append, h0]
  exact Nat.add_zero _

/-- Once a handle is cached for model name m, any client construction (for any
model name, collection and url) keeps that entry and performs no further load
of m. -/
theorem clientInit_pres (env : Env) (url coll m' : String) (s : GState)
    (r : Except VdbError Client) (s1 : GState) (m : String) (h : Handle)
    (hm : alookup s.embCache m = some h) (he : clientInit env url coll m' s = (r, s1)) :
    alookup s1.embCache m = some h ∧ s1.loadAttempts.count m = s.loadAttempts.count m := by
  cases hlook : alookup s.embCache m' with
  | some h0 =>
      simp only [clientInit, hlook] at he
      simp only [Prod.mk.injEq] at he
      obtain ⟨-, h2⟩ := he
      subst h2
      exact ⟨hm, rfl⟩
  | none =>
      have hmm : m' ≠ m := by
        intro e
        subst e
        rw [hlook] at hm
        exact Option.noConfusion hm
      by_cases hl : env.loadOk m' (s.loadAttempts.count m') = true
      · simp only [clientInit, hlook, loadModel, hl, if_true] at he
        simp only [Prod.mk.injEq] at he
        obtain ⟨-, h2⟩ := he
        subst h2
        refine ⟨?_, ?_⟩
        · show alookup (aset s.embCache m' _) m = some h
          rw [alookup_aset_ne _ _ _ _ (Ne.symm hmm)]
          exact hm
        · exact count_append_one_ne _ _ _ hmm
      · simp only [Bool.not_eq_true] at hl
        simp only [clientInit, hlook, loadModel, hl, Bool.false_eq_true, if_false] at he
        simp only [Prod.mk.injEq] at he
        obtain ⟨-, h2⟩ := he
        subst h2
        exact ⟨hm, count_append_one_ne _ _ _ hmm⟩

/-- The prewarm model loop likewise keeps a cached entry and adds no load for
its name. -/
theorem prewarmLoadLoop_pres (env : Env) (models : List String) (s : GState)
    (r : Except VdbError Unit) (s1 : GState) (m : String) (h : Handle)
    (hm : alookup s.embCache m = some h) (he : prewarmLoadLoop env models s = (r, s1)) :
    alookup s1.embCache m = some h ∧ s1.loadAttempts.count m = s.loadAttempts.count m := by
  induction models generalizing s r s1 with
  | nil =>
      simp only [prewarmLoadLoop, Prod.mk.injEq] at he
      obtain ⟨-, h2⟩ := he
      subst h2
      exact ⟨hm, rfl⟩
  | cons m0 ms ih =>
      cases hlook : alookup s.embCache m0 with
      | some h0 =>
          simp only [prewarmLoadLoop, hlook] at he
          exact ih s r s1 hm he
      | none =>
          have hmm : m0 ≠ m := by
            intro e
            subst e
            rw [hlook] at hm
            exact Option.noConfusion hm
          by_cases hl : env.loadOk m0 (s.loadAttempts.count m0) = true
          · simp only [prewarmLoadLoop, hlook, loadModel, hl, if_true] at he
            have hm2 : alookup (aset s.embCache m0 { id := s.nextId, modelName := m0 }) m = some h := by
              rw [alookup_aset_ne _ _ _ _ (Ne.symm hmm)]
              exact hm
            obtain ⟨ha, hb⟩ := ih _ r s1 hm2 he
            exact ⟨ha, by rw [hb]; exact count_append_one_ne _ _ _ hmm⟩
          · simp only [Bool.not_eq_true] at hl
            simp only [prewarmLoadLoop, hlook, loadModel, hl, Bool.false_eq_true, if_false] at he
            simp only [Prod.mk.injEq] at he
            obtain ⟨-, h2⟩ := he
            subst h2
            exact ⟨hm, count_append_one_ne _ _ _ hmm⟩

/-- Registry lookup keeps a cached embedding entry and adds no load for it. -/
theorem get_vector_client_pres (env : Env) (osEnv : String → String) (coll : String)
    (url? : Option String) (s : GState) (r : Except VdbError Client) (s1 : GState)
    (m : String) (h : Handle) (hm : alookup s.embCache m = some h)
    (he : get_vector_client env osEnv coll url? s = (r, s1)) :
    alookup s1.embCache m = some h ∧ s1.loadAttempts.count m = s.loadAttempts.count m := by
  cases hlook : alookup s.clientCache (ckey coll (url?.getD (osEnv "POSTGRES_CONNECTION_STRING"))) with
  | some c =>
      simp only [get_vector_client, hlook] at he
      simp only [Prod.mk.injEq] at he
      obtain ⟨-, h2⟩ := he
      subst h2
      exact ⟨hm, rfl⟩
  | none =>
      rcases hci : clientInit env (url?.getD (osEnv "POSTGRES_CONNECTION_STRING")) coll defaultModel s with ⟨rc | c, sc⟩
      · simp only [get_vector_client, hlook, hci] at he
        simp only [Prod.mk.injEq] at he
        obtain ⟨-, h2⟩ := he
        subst h2
        exact clientInit_pres env _ coll defaultModel s (.error rc) sc m h hm hci
      · simp only [get_vector_client, hlook, hci] at he
        simp only [Prod.mk.injEq] at he
        obtain ⟨-, h2⟩ := he
        subst h2
        exact clientInit_pres env _ coll defaultModel s (.ok c) sc m h hm hci

/-- query_batch does not touch the embedding cache, the client registry or the
load log. -/
theorem query_batch_eff (env : Env) (c : Client) (qs : List String) (k : Nat)
    (s : GState) (r : Except VdbError (List Doc)) (c' : Client) (s' : GState)
    (h : query_batch env c qs k s = (r, c', s')) :
    s'.embCache = s.embCache ∧ s'.clientCache = s.clientCache ∧
    s'.loadAttempts = s.loadAttempts := by
  induction qs generalizing c s r c' s' with
  | nil =>
      simp only [query_batch, Prod.mk.injEq] at h
      obtain ⟨-, -, h3⟩ := h
      subst h3
      exact ⟨rfl, rfl, rfl⟩
  | cons q qs ih =>
      rcases hq : query env c q k s with ⟨rq | rs, c1, s1⟩
      · simp only [query_batch, hq] at h
        simp only [Prod.mk.injEq] at h
        obtain ⟨-, -, h3⟩ := h
        subst h3
        obtain ⟨-, -, -, -, a, b, d⟩ := query_eff env c q k s _ _ _ hq
        exact ⟨a, b, d⟩
      · rcases hb : query_batch env c1 qs k s1 with ⟨rb | rest, c2, s2⟩ <;>
          · simp only [query_batch, hq, hb] at h
            simp only [Prod.mk.injEq] at h
            obtain ⟨-, -, h3⟩ := h
            subst h3
            obtain ⟨-, -, -, -, a, b, d⟩ := query_eff env c q k s _ _ _ hq
            obtain ⟨a2, b2, d2⟩ := ih c1 s1 _ _ _ hb
            exact ⟨a2.trans a, b2.trans b, d2.trans d⟩

/-- prewarm_models keeps a cached embedding entry and adds no load for it. -/
theorem prewarm_models_pres (env : Env) (osEnv : String → String)
    (models? : Option (List String)) (url? : Option String) (s : GState)
    (r : Except VdbError Unit) (s1 : GState) (m : String) (h : Handle)
    (hm : alookup s.embCache m = some h)
    (he : prewarm_models env osEnv models? url? s = (r, s1)) :
    alookup s1.embCache m = some h ∧ s1.loadAttempts.count m = s.loadAttempts.count m := by
  by_cases hp : s.prewarmed = true
  · simp only [prewarm_models, hp, if_true] at he
    simp only [Prod.mk.injEq] at he
    obtain ⟨-, h2⟩ := he
    subst h2
    exact ⟨hm, rfl⟩
  · simp only [Bool.not_eq_true] at hp
    rcases hloop : prewarmLoadLoop env (models?.getD [defaultModel]) s with ⟨rl | u, sl⟩
    · simp only [prewarm_models, hp, Bool.false_eq_true, if_false, hloop] at he
      simp only [Prod.mk.injEq] at he
      obtain ⟨-, h2⟩ := he
      subst h2
      exact prewarmLoadLoop_pres env _ s _ _ m h hm hloop
    · obtain ⟨hl1, hl2⟩ := prewarmLoadLoop_pres env _ s _ _ m h hm hloop
      rcases hg : get_vector_client env osEnv "cv_documents"
          (some (url?.getD (osEnv "POSTGRES_CONNECTION_STRING"))) sl with ⟨rg | c, sg⟩
      · simp only [prewarm_models, hp, Bool.false_eq_true, if_false, hloop, hg] at he
        simp only [Prod.mk.injEq] at he
        obtain ⟨-, h2⟩ := he
        subst h2
        obtain ⟨hg1, hg2⟩ := get_vector_client_pres env osEnv _ _ sl _ _ m h hl1 hg
        exact ⟨hg1, hg2.trans hl2⟩
      · simp only [prewarm_models, hp, Bool.false_eq_true, if_false, hloop, hg] at he
        simp only [Prod.mk.injEq] at he
        obtain ⟨-, h2⟩ := he
        subst h2
        obtain ⟨hg1, hg2⟩ := get_vector_client_pres env osEnv _ _ sl _ _ m h hl1 hg
        exact ⟨hg1, hg2.trans hl2⟩

/-- fetch_context keeps a cached embedding entry and adds no load for it. -/
theorem fetch_context_pres (env : Env) (osEnv : String → String)
    (queries : List String) (s : GState) (r : Except VdbError (List Doc))
    (s1 : GState) (m : String) (h : Handle) (hm : alookup s.embCache m = some h)
    (he : fetch_context env osEnv queries s = (r, s1)) :
    alookup s1.embCache m = some h ∧ s1.loadAttempts.count m = s.loadAttempts.count m := by
  rcases hg : get_vector_client env osEnv "cv_documents" none s with ⟨rg | c, sg⟩
  · simp only [fetch_context, hg] at he
    simp only [Prod.mk.injEq] at he
    obtain ⟨-, h2⟩ := he
    subst h2
    exact get_vector_client_pres env osEnv _ _ s _ _ m h hm hg
  · obtain ⟨hg1, hg2⟩ := get_vector_client_pres env osEnv "cv_documents" none s _ _ m h hm hg
    rcases hb : query_batch env c queries 5 sg with ⟨rb | rs, c2, s2⟩
    · simp only [fetch_context, hg, hb] at he
      simp only [Prod.mk.injEq] at he
      obtain ⟨-, h2⟩ := he
      subst h2
      obtain ⟨a, -, d⟩ := query_batch_eff env c queries 5 sg _ _ _ hb
      exact ⟨by rw [a]; exact hg1, by rw [d]; exact hg2⟩
    · simp only [fetch_context, hg, hb] at he
      simp only [Prod.mk.injEq] at he
      obtain ⟨-, h2⟩ := he
      subst h2
      obtain ⟨a, -, d⟩ := query_batch_eff env c queries 5 sg _ _ _ hb
      exact ⟨by rw [a]; exact hg1, by rw [d]; exact hg2⟩

/-- One entry-point invocation keeps a cached embedding entry and adds no
load for it. -/
theorem stepOp_pres (env : Env) (osEnv : String → String) (op : Op) (s : GState)
    (m : String) (h : Handle) (hm : alookup s.embCache m = some h) :
    alookup (stepOp env osEnv op s).embCache m = some h ∧
    (stepOp env osEnv op s).loadAttempts.count m = s.loadAttempts.count m := by
  cases op with
  | mkClient url coll model =>
      exact clientInit_pres env url coll model s _ _ m h hm rfl
  | getClient coll url? =>
      exact get_vector_client_pres env osEnv coll url? s _ _ m h hm rfl
  | prewarm models? url? =>
      exact prewarm_models_pres env osEnv models? url? s _ _ m h hm rfl
  | fetchOp qs =>
      exact fetch_context_pres env osEnv qs s _ _ m h hm rfl

/-- C5: once a handle is cached for a model name, every later sequence of
entry-point invocations (client constructions for any collection, registry
lookups, prewarms, batch fetches) keeps exactly that handle cached and never
invokes the underlying load routine for that name again; and every client
constructed for that name receives that same handle. -/
theorem model_loaded_once (env : Env) (osEnv : String → String) (m : String)
    (h : Handle) (ops : List Op) (s : GState)
    (hm : alookup s.embCache m = some h) :
    (alookup (runOps env osEnv ops s).embCache m = some h ∧
     (runOps env osEnv ops s).loadAttempts.count m = s.loadAttempts.count m) ∧
    (∀ url coll (s2 : GState) (c : Client) (s3 : GState),
      alookup s2.embCache m = some h →
      clientInit env url coll m s2 = (.ok c, s3) → c.embeddings = h) := by
  constructor
  · induction ops generalizing s with
    | nil => exact ⟨hm, rfl⟩
    | cons op ops ih =>
        obtain ⟨h1, h2⟩ := stepOp_pres env osEnv op s m h hm
        obtain ⟨h3, h4⟩ := ih (stepOp env osEnv op s) h1
        exact ⟨h3, h4.trans h2⟩
  · intro url coll s2 c s3 hm2 hcl
    simp only [clientInit, hm2] at hcl
    simp only [Prod.mk.injEq, Except.ok.injEq] at hcl
    obtain ⟨h1, -⟩ := hcl
    rw [← h1]

/-- Witness for C5: with the default model cached, a registry lookup for a
different collection plus a prewarm leave the entry and the load count
untouched, and a direct construction returns the cached handle. -/
theorem model_loaded_once_witness :
    (alookup (runOps cEnv cOs [Op.getClient "x" (some "postgresql://db"), Op.prewarm none none] sEmb).embCache defaultModel = some hW ∧
     (runOps cEnv cOs [Op.getClient "x" (some "postgresql://db"), Op.prewarm none none] sEmb).loadAttempts.count defaultModel = sEmb.loadAttempts.count defaultModel) ∧
    (∀ url coll (s2 : GState) (c : Client) (s3 : GState),
      alookup s2.embCache defaultModel = some hW →
      clientInit cEnv url coll defaultModel s2 = (.ok c, s3) → c.embeddings = hW) :=
  model_loaded_once cEnv cOs defaultModel hW
    [Op.getClient "x" (some "postgresql://db"), Op.prewarm none none] sEmb (by decide)

/-! ### Claim C6: failures are never cached -/

/-- C6: if loading an embedding model raises, no registry entry is created for
that name (the embedding cache is unchanged, only the attempt is logged) and
the error propagates, so a later request with the same name re-attempts the
load and can succeed; likewise if lazy store construction raises, the client
keeps vector_store = none and the error propagates, and the next
_ensure_vector_store call re-attempts the connection and can succeed. -/
theorem failures_not_cached (env : Env) (url coll name : String) (s : GState)
    (c : Client) :
    (alookup s.embCache name = none →
      env.loadOk name (s.loadAttempts.count name) = false →
      clientInit env url coll name s =
        (.error (.modelLoadError name), { s with loadAttempts := s.loadAttempts ++ [name] }) ∧
      ({ s with loadAttempts := s.loadAttempts ++ [name] } : GState).embCache = s.embCache ∧
      (∀ s2 : GState, alookup s2.embCache name = none →
        env.loadOk name (s2.loadAttempts.count name) = true →
        ∃ c2 s3, clientInit env url coll name s2 = (.ok c2, s3) ∧
          s3.loadAttempts = s2.loadAttempts ++ [name] ∧
          alookup s3.embCache name = some c2.embeddings)) ∧
    (c.vector_store = none →
      env.connectOk s.connectAttempts = false →
      ensureVectorStore env c s =
        (.error .storeConnectionError, c, { s with connectAttempts := s.connectAttempts + 1 }) ∧
      (∀ s2 : GState, env.connectOk s2.connectAttempts = true →
        ensureVectorStore env c s2 =
          (.ok { embeddings := c.embeddings, collection_name := c.collection_name, connection := c.connection_url },
           { c with vector_store := some { embeddings := c.embeddings, collection_name := c.collection_name, connection := c.connection_url } },
           { s2 with connectAttempts := s2.connectAttempts + 1 }))) := by
  constructor
  · intro h1 h2
    refine ⟨?_, rfl, ?_⟩
    · simp only [clientInit, h1, loadModel, h2, Bool.false_eq_true, if_false]
    · intro s2 h3 h4
      refine ⟨{ connection_url := url, async_connection_url := pyReplace url "postgresql://" "postgresql+asyncpg://", collection_name := coll, embeddings := { id := s2.nextId, modelName := name }, vector_store := none }, { s2 with loadAttempts := s2.loadAttempts ++ [name], nextId := s2.nextId + 1, embCache := aset s2.embCache name { id := s2.nextId, modelName := name } }, ?_, rfl, ?_⟩
      · simp only [clientInit, h3, loadModel, h4, if_true]
      · exact alookup_aset_self _ _ _
  · intro hv h2
    constructor
    · simp only [ensureVectorStore, hv, h2, Bool.false_eq_true, if_false]
    · intro s2 h3
      simp only [ensureVectorStore, hv, h3, if_true]

/-- Witness for C6: in an environment whose first load and first connection
attempt fail, the initial calls raise while leaving the caches and the client
untouched. -/
theorem failures_not_cached_witness :
    clientInit fEnv "u" "cv" "m" initState =
      (.error (.modelLoadError "m"), { initState with loadAttempts := ["m"] }) ∧
    ensureVectorStore fEnv cW initState =
      (.error .storeConnectionError, cW, { initState with connectAttempts := 1 }) := by
  have h := failures_not_cached fEnv "u" "cv" "m" initState cW
  obtain ⟨h1, -, -⟩ := h.1 (by decide) (by decide)
  obtain ⟨h2, -⟩ := h.2 (by decide) (by decide)
  exact ⟨h1, h2⟩

/-! ### Claim C7: prewarm does not initialize the store connection -/

/-- C7: evaluation of prewarm_models at its default arguments from a cold
state.  It succeeds and registers the cv_documents client, but that client
still has vector_store = none, no connection attempt was made and no
similarity query was issued against the store — the lazy store connection is
NOT initialized, contradicting the prewarm claim (and the log lines of the
source that announce the connection as ready). -/
theorem prewarm_leaves_store_uninitialized :
    (prewarm_models cEnv cOs none none initState).1 = .ok () ∧
    (alookup (prewarm_models cEnv cOs none none initState).2.clientCache
        (ckey "cv_documents" "postgresql://db")).map Client.vector_store = some none ∧
    (prewarm_models cEnv cOs none none initState).2.connectAttempts = 0 ∧
    (prewarm_models cEnv cOs none none initState).2.searchCalls = 0 := by
  refine ⟨rfl, by decide, rfl, rfl⟩

/-! ### Claim C8: fetch_context on the empty list -/

/-- C8 counterexample: from a cold registry, fetch_context([]) does return []
without error, but it is not side-effect free: it creates a client-registry
entry and an embedding-model-registry entry. -/
theorem fetch_empty_side_effects :
    (fetch_context cEnv cOs [] initState).1 = .ok [] ∧
    (fetch_context cEnv cOs [] initState).2.clientCache ≠ initState.clientCache ∧
    (fetch_context cEnv cOs [] initState).2.embCache ≠ initState.embCache := by
  refine ⟨rfl, by decide, by decide⟩

/-- Helper: clientInit never touches the query cache or the client registry. -/
theorem clientInit_frame (env : Env) (url coll m : String) (s : GState)
    (r : Except VdbError Client) (s1 : GState)
    (h : clientInit env url coll m s = (r, s1)) :
    s1.queryCache = s.queryCache ∧ s1.clientCache = s.clientCache := by
  cases hlook : alookup s.embCache m with
  | some h0 =>
      simp only [clientInit, hlook] at h
      simp only [Prod.mk.injEq] at h
      obtain ⟨-, h2⟩ := h
      subst h2
      exact ⟨rfl, rfl⟩
  | none =>
      by_cases hl : env.loadOk m (s.loadAttempts.count m) = true
      · simp only [clientInit, hlook, loadModel, hl, if_true] at h
        simp only [Prod.mk.injEq] at h
        obtain ⟨-, h2⟩ := h
        subst h2
        exact ⟨rfl, rfl⟩
      · simp only [Bool.not_eq_true] at hl
        simp only [clientInit, hlook, loadModel, hl, Bool.false_eq_true, if_false] at h
        simp only [Prod.mk.injEq] at h
        obtain ⟨-, h2⟩ := h
        subst h2
        exact ⟨rfl, rfl⟩

/-- Helper: get_vector_client never touches the query cache. -/
theorem get_vector_client_queryCache (env : Env) (osEnv : String → String)
    (coll : String) (url? : Option String) (s : GState)
    (r : Except VdbError Client) (s1 : GState)
    (h : get_vector_client env osEnv coll url? s = (r, s1)) :
    s1.queryCache = s.queryCache := by
  cases hlook : alookup s.clientCache (ckey coll (url?.getD (osEnv "POSTGRES_CONNECTION_STRING"))) with
  | some c =>
      simp only [get_vector_client, hlook] at h
      simp only [Prod.mk.injEq] at h
      obtain ⟨-, h2⟩ := h
      subst h2
      rfl
  | none =>
      rcases hci : clientInit env (url?.getD (osEnv "POSTGRES_CONNECTION_STRING")) coll defaultModel s with ⟨rc | c, sc⟩ <;>
        · simp only [get_vector_client, hlook, hci] at h
          simp only [Prod.mk.injEq] at h
          obtain ⟨-, h2⟩ := h
          subst h2
          simpa using (clientInit_frame env _ coll defaultModel s _ _ hci).1

/-- Helper: query_batch never removes a query-cache entry either, but for the
empty list it is the identity on client and state. -/
theorem query_batch_nil (env : Env) (c : Client) (k : Nat) (s : GState) :
    query_batch env c [] k s = (.ok [], c, s) := rfl

/-- C8 amended: fetch_context([]) returns the empty sequence and never touches
the query cache; when the default-collection client is already registered the
call additionally has no side effect at all and raises no error (the cold-path
registration of the default client is the only possible side effect). -/
theorem fetch_empty_amended (env : Env) (osEnv : String → String) (s : GState) :
    (∀ r s1, fetch_context env osEnv [] s = (r, s1) → s1.queryCache = s.queryCache) ∧
    (∀ c, alookup s.clientCache (ckey "cv_documents" (osEnv "POSTGRES_CONNECTION_STRING")) = some c →
      fetch_context env osEnv [] s = (.ok [], s)) := by
  constructor
  · intro r s1 h
    rcases hg : get_vector_client env osEnv "cv_documents" none s with ⟨rg | c, sg⟩
    · simp only [fetch_context, hg] at h
      simp only [Prod.mk.injEq] at h
      obtain ⟨-, h2⟩ := h
      subst h2
      exact get_vector_client_queryCache env osEnv _ _ s _ _ hg
    · simp only [fetch_context, hg, query_batch_nil] at h
      simp only [Prod.mk.injEq] at h
      obtain ⟨-, h2⟩ := h
      subst h2
      simpa using get_vector_client_queryCache env osEnv _ _ s _ _ hg
  · intro c hc
    have hc2 : alookup s.clientCache (ckey "cv_documents" ((none : Option String).getD (osEnv "POSTGRES_CONNECTION_STRING"))) = some c := hc
    simp only [fetch_context, get_vector_client, hc2, query_batch_nil,
      aset_of_alookup_eq _ _ _ hc]

/-- Witness for C8 amended: with the default client already registered, the
empty fetch is a complete no-op. -/
theorem fetch_empty_amended_witness :
    fetch_context cEnv cOs [] sCli = (.ok [], sCli) :=
  (fetch_empty_amended cEnv cOs sCli).2 cvClient (by decide)

/-! ### Claim C9: environment reads -/

/-- C9 counterexample: two runs that differ only in the process environment
(POSTGRES_CONNECTION_STRING) produce different registry states from the same
explicit arguments when the connection url parameter is left at its default:
get_vector_client itself reads the environment variable. -/
theorem env_dependence_cex :
    (get_vector_client cEnv cOs "c" none initState).2.clientCache ≠
      (get_vector_client cEnv cOsB "c" none initState).2.clientCache := by
  decide

/-- C9 amended: every operation that receives the connection string as an
explicit argument is environment-independent: get_vector_client with an
explicit url and prewarm_models with an explicit url compute identical
results under any two process environments (and query, insert_documents and
query_batch take no environment parameter at all); only the defaulted
connection url (and the defaulted prewarm url) are read from
POSTGRES_CONNECTION_STRING by the core itself. -/
theorem env_independence_explicit_args (env : Env) (o1 o2 : String → String)
    (coll url : String) (s : GState) (models? : Option (List String)) :
    get_vector_client env o1 coll (some url) s = get_vector_client env o2 coll (some url) s ∧
    prewarm_models env o1 models? (some url) s = prewarm_models env o2 models? (some url) s := by
  constructor
  · rfl
  · rfl

/-! ### Claim C10: every registry client uses the hard-coded default model -/

theorem alookup_aset_cases {β : Type} (l : List (String × β)) (k : String) (v : β)
    (k' : String) (w : β) (h : alookup (aset l k v) k' = some w) :
    (k' = k ∧ w = v) ∨ alookup l k' = some w := by
  by_cases he : k' = k
  · subst he
    rw [alookup_aset_self] at h
    injection h with hh
    exact Or.inl ⟨rfl, hh.symm⟩
  · rw [alookup_aset_ne _ _ _ _ he] at h
    exact Or.inr h

/-- Client construction preserves model-name consistency of the embedding
cache, leaves the client registry alone, and hands out a handle whose model
name is exactly the requested one. -/
theorem clientInit_inv (env : Env) (url coll m : String) (s : GState)
    (r : Except VdbError Client) (s1 : GState) (hs : EmbOk s)
    (h : clientInit env url coll m s = (r, s1)) :
    EmbOk s1 ∧ s1.clientCache = s.clientCache ∧
    (∀ c, r = .ok c → c.embeddings.modelName = m) := by
  cases hlook : alookup s.embCache m with
  | some h0 =>
      simp only [clientInit, hlook] at h
      simp only [Prod.mk.injEq] at h
      obtain ⟨h1, h2⟩ := h
      subst h2
      subst h1
      refine ⟨hs, rfl, ?_⟩
      intro c hc
      injection hc with hcc
      rw [← hcc]
      exact hs m h0 hlook
  | none =>
      by_cases hl : env.loadOk m (s.loadAttempts.count m) = true
      · simp only [clientInit, hlook, loadModel, hl, if_true] at h
        simp only [Prod.mk.injEq] at h
        obtain ⟨h1, h2⟩ := h
        subst h2
        subst h1
        refine ⟨?_, rfl, ?_⟩
        · intro m' h' hm'
          rcases alookup_aset_cases _ _ _ _ _ hm' with ⟨he, hv⟩ | hold
          · subst he
            rw [hv]
          · exact hs m' h' hold
        · intro c hc
          injection hc with hcc
          rw [← hcc]
      · simp only [Bool.not_eq_true] at hl
        simp only [clientInit, hlook, loadModel, hl, Bool.false_eq_true, if_false] at h
        simp only [Prod.mk.injEq] at h
        obtain ⟨h1, h2⟩ := h
        subst h2
        subst h1
        refine ⟨hs, rfl, ?_⟩
        intro c hc
        exact Except.noConfusion hc

/-- query_batch never swaps the embedding handle of the client it threads. -/
theorem query_batch_client_emb (env : Env) (c : Client) (qs : List String)
    (k : Nat) (s : GState) (r : Except VdbError (List Doc)) (c' : Client)
    (s' : GState) (h : query_batch env c qs k s = (r, c', s')) :
    c'.embeddings = c.embeddings := by
  induction qs generalizing c s r c' s' with
  | nil =>
      simp only [query_batch, Prod.mk.injEq] at h
      obtain ⟨-, h2, -⟩ := h
      subst h2
      rfl
  | cons q qs ih =>
      rcases hq : query env c q k s with ⟨rq | rs, c1, s1⟩
      · simp only [query_batch, hq] at h
        simp only [Prod.mk.injEq] at h
        obtain ⟨-, h2, -⟩ := h
        subst h2
        exact (query_eff env c q k s _ _ _ hq).2.1
      · rcases hb : query_batch env c1 qs k s1 with ⟨rb | rest, c2, s2⟩ <;>
          · simp only [query_batch, hq, hb] at h
            simp only [Prod.mk.injEq] at h
            obtain ⟨-, h2, -⟩ := h
            subst h2
            exact (ih c1 s1 _ _ _ hb).trans (query_eff env c q k s _ _ _ hq).2.1

/-- The prewarm model loop preserves model-name consistency and the client
registry. -/
theorem prewarmLoadLoop_inv (env : Env) (models : List String) (s : GState)
    (r : Except VdbError Unit) (s1 : GState) (hs : EmbOk s)
    (h : prewarmLoadLoop env models s = (r, s1)) :
    EmbOk s1 ∧ s1.clientCache = s.clientCache := by
  induction models generalizing s r s1 with
  | nil =>
      simp only [prewarmLoadLoop, Prod.mk.injEq] at h
      obtain ⟨-, h2⟩ := h
      subst h2
      exact ⟨hs, rfl⟩
  | cons m0 ms ih =>
      cases hlook : alookup s.embCache m0 with
      | some h0 =>
          simp only [prewarmLoadLoop, hlook] at h
          exact ih s r s1 hs h
      | none =>
          by_cases hl : env.loadOk m0 (s.loadAttempts.count m0) = true
          · simp only [prewarmLoadLoop, hlook, loadModel, hl, if_true] at h
            have hs2 : EmbOk { s with loadAttempts := s.loadAttempts ++ [m0], nextId := s.nextId + 1, embCache := aset s.embCache m0 { id := s.nextId, modelName := m0 }, embedCalls := s.embedCalls + 1 } := by
              intro m' h' hm'
              rcases alookup_aset_cases _ _ _ _ _ hm' with ⟨he, hv⟩ | hold
              · subst he
                rw [hv]
              · exact hs m' h' hold
            exact ih { s with loadAttempts := s.loadAttempts ++ [m0], nextId := s.nextId + 1, embCache := aset s.embCache m0 { id := s.nextId, modelName := m0 }, embedCalls := s.embedCalls + 1 } _ _ hs2 h
          · simp only [Bool.not_eq_true] at hl
            simp only [prewarmLoadLoop, hlook, loadModel, hl, Bool.false_eq_true, if_false] at h
            simp only [Prod.mk.injEq] at h
            obtain ⟨-, h2⟩ := h
            subst h2
            exact ⟨hs, rfl⟩

/-- Registry lookup preserves both invariants and only ever returns clients
carrying the default model. -/
theorem get_vector_client_inv (env : Env) (osEnv : String → String) (coll : String)
    (url? : Option String) (s : GState) (r : Except VdbError Client) (s1 : GState)
    (hs : EmbOk s) (hcl : ClientsOk s)
    (h : get_vector_client env osEnv coll url? s = (r, s1)) :
    EmbOk s1 ∧ ClientsOk s1 ∧
    (∀ c, r = .ok c → c.embeddings.modelName = defaultModel) := by
  cases hlook : alookup s.clientCache (ckey coll (url?.getD (osEnv "POSTGRES_CONNECTION_STRING"))) with
  | some c0 =>
      simp only [get_vector_client, hlook] at h
      simp only [Prod.mk.injEq] at h
      obtain ⟨h1, h2⟩ := h
      subst h2
      subst h1
      refine ⟨hs, hcl, ?_⟩
      intro c hc
      injection hc with hcc
      rw [← hcc]
      exact hcl _ c0 hlook
  | none =>
      rcases hci : clientInit env (url?.getD (osEnv "POSTGRES_CONNECTION_STRING")) coll defaultModel s with ⟨rc | c, sc⟩
      · simp only [get_vector_client, hlook, hci] at h
        simp only [Prod.mk.injEq] at h
        obtain ⟨h1, h2⟩ := h
        subst h2
        subst h1
        obtain ⟨he, hcc, -⟩ := clientInit_inv env _ coll defaultModel s _ _ hs hci
        refine ⟨he, ?_, ?_⟩
        · intro key c' hk
          rw [hcc] at hk
          exact hcl key c' hk
        · intro c hc
          exact Except.noConfusion hc
      · simp only [get_vector_client, hlook, hci] at h
        simp only [Prod.mk.injEq] at h
        obtain ⟨h1, h2⟩ := h
        subst h2
        subst h1
        obtain ⟨he, hcc, hmod⟩ := clientInit_inv env _ coll defaultModel s _ _ hs hci
        refine ⟨he, ?_, ?_⟩
        · intro key c' hk
          rcases alookup_aset_cases _ _ _ _ _ hk with ⟨-, hv⟩ | hold
          · rw [hv]
            exact hmod c rfl
          · rw [hcc] at hold
            exact hcl key c' hold
        · intro c' hc
          injection hc with hcc2
          rw [← hcc2]
          exact hmod c rfl

/-- prewarm_models preserves both invariants. -/
theorem prewarm_models_inv (env : Env) (osEnv : String → String)
    (models? : Option (List String)) (url? : Option String) (s : GState)
    (r : Except VdbError Unit) (s1 : GState) (hs : EmbOk s) (hcl : ClientsOk s)
    (h : prewarm_models env osEnv models? url? s = (r, s1)) :
    EmbOk s1 ∧ ClientsOk s1 := by
  by_cases hp : s.prewarmed = true
  · simp only [prewarm_models, hp, if_true] at h
    simp only [Prod.mk.injEq] at h
    obtain ⟨-, h2⟩ := h
    subst h2
    exact ⟨hs, hcl⟩
  · simp only [Bool.not_eq_true] at hp
    rcases hloop : prewarmLoadLoop env (models?.getD [defaultModel]) s with ⟨rl | u, sl⟩
    · simp only [prewarm_models, hp, Bool.false_eq_true, if_false, hloop] at h
      simp only [Prod.mk.injEq] at h
      obtain ⟨-, h2⟩ := h
      subst h2
      exact ⟨(prewarmLoadLoop_inv env _ s _ _ hs hloop).1, by
        intro key c' hk
        rw [(prewarmLoadLoop_inv env _ s _ _ hs hloop).2] at hk
        exact hcl key c' hk⟩
    · obtain ⟨hsl, hcc⟩ := prewarmLoadLoop_inv env _ s _ _ hs hloop
      have hcll : ClientsOk sl := by
        intro key c' hk
        rw [hcc] at hk
        exact hcl key c' hk
      rcases hg : get_vector_client env osEnv "cv_documents"
          (some (url?.getD (osEnv "POSTGRES_CONNECTION_STRING"))) sl with ⟨rg | c, sg⟩
      · simp only [prewarm_models, hp, Bool.false_eq_true, if_false, hloop, hg] at h
        simp only [Prod.mk.injEq] at h
        obtain ⟨-, h2⟩ := h
        subst h2
        obtain ⟨a, b, -⟩ := get_vector_client_inv env osEnv _ _ sl _ _ hsl hcll hg
        exact ⟨a, b⟩
      · simp only [prewarm_models, hp, Bool.false_eq_true, if_false, hloop, hg] at h
        simp only [Prod.mk.injEq] at h
        obtain ⟨-, h2⟩ := h
        subst h2
        obtain ⟨a, b, -⟩ := get_vector_client_inv env osEnv _ _ sl _ _ hsl hcll hg
        exact ⟨a, b⟩

/-- fetch_context preserves both invariants. -/
theorem fetch_context_inv (env : Env) (osEnv : String → String)
    (queries : List String) (s : GState) (r : Except VdbError (List Doc))
    (s1 : GState) (hs : EmbOk s) (hcl : ClientsOk s)
    (h : fetch_context env osEnv queries s = (r, s1)) :
    EmbOk s1 ∧ ClientsOk s1 := by
  rcases hg : get_vector_client env osEnv "cv_documents" none s with ⟨rg | c, sg⟩
  · simp only [fetch_context, hg] at h
    simp only [Prod.mk.injEq] at h
    obtain ⟨-, h2⟩ := h
    subst h2
    obtain ⟨a, b, -⟩ := get_vector_client_inv env osEnv _ _ s _ _ hs hcl hg
    exact ⟨a, b⟩
  · obtain ⟨hsg, hclg, hmod⟩ := get_vector_client_inv env osEnv _ _ s _ _ hs hcl hg
    rcases hb : query_batch env c queries 5 sg with ⟨rb | rs, c2, s2⟩ <;>
      · simp only [fetch_context, hg, hb] at h
        simp only [Prod.mk.injEq] at h
        obtain ⟨-, h2⟩ := h
        subst h2
        obtain ⟨hemb, hclc, -⟩ := query_batch_eff env c queries 5 sg _ _ _ hb
        have hc2 : c2.embeddings = c.embeddings := query_batch_client_emb env c queries 5 sg _ _ _ hb
        refine ⟨?_, ?_⟩
        · intro m' h' hm'
          exact hsg m' h' (by rw [← hemb]; exact hm')
        · intro key c' hk
          rcases alookup_aset_cases _ _ _ _ _ hk with ⟨-, hv⟩ | hold
          · rw [hv, hc2]
            exact hmod c rfl
          · rw [hclc] at hold
            exact hclg key c' hold

/-- Every entry-point invocation preserves both invariants. -/
theorem stepOp_inv (env : Env) (osEnv : String → String) (op : Op) (s : GState)
    (hs : EmbOk s) (hcl : ClientsOk s) :
    EmbOk (stepOp env osEnv op s) ∧ ClientsOk (stepOp env osEnv op s) := by
  cases op with
  | mkClient url coll model =>
      rcases hci : clientInit env url coll model s with ⟨rc, sc⟩
      obtain ⟨a, b, -⟩ := clientInit_inv env url coll model s rc sc hs hci
      constructor
      · simp only [stepOp, hci]
        exact a
      · simp only [stepOp, hci]
        intro key c' hk
        rw [b] at hk
        exact hcl key c' hk
  | getClient coll url? =>
      rcases hg : get_vector_client env osEnv coll url? s with ⟨rg, sg⟩
      obtain ⟨a, b, -⟩ := get_vector_client_inv env osEnv coll url? s rg sg hs hcl hg
      constructor
      · simp only [stepOp, hg]
        exact a
      · simp only [stepOp, hg]
        exact b
  | prewarm models? url? =>
      rcases hp2 : prewarm_models env osEnv models? url? s with ⟨rp, sp⟩
      obtain ⟨a, b⟩ := prewarm_models_inv env osEnv models? url? s rp sp hs hcl hp2
      constructor
      · simp only [stepOp, hp2]
        exact a
      · simp only [stepOp, hp2]
        exact b
  | fetchOp qs =>
      rcases hf : fetch_context env osEnv qs s with ⟨rf, sf⟩
      obtain ⟨a, b⟩ := fetch_context_inv env osEnv qs s rf sf hs hcl hf
      constructor
      · simp only [stepOp, hf]
        exact a
      · simp only [stepOp, hf]
        exact b

/-- Both invariants hold in every reachable state. -/
theorem runOps_inv (env : Env) (osEnv : String → String) (ops : List Op)
    (s : GState) (hs : EmbOk s) (hcl : ClientsOk s) :
    EmbOk (runOps env osEnv ops s) ∧ ClientsOk (runOps env osEnv ops s) := by
  induction ops generalizing s with
  | nil => exact ⟨hs, hcl⟩
  | cons op ops ih =>
      obtain ⟨a, b⟩ := stepOp_inv env osEnv op s hs hcl
      exact ih (stepOp env osEnv op s) a b

/-- C10: in any state reachable from process start through the module entry
points, every client handed out by get_vector_client carries the hard-coded
default embedding model sentence-transformers/all-MiniLM-L6-v2 — the registry
exposes no way to request another model. -/
theorem registry_clients_default_model (env : Env) (osEnv : String → String)
    (ops : List Op) (coll : String) (url? : Option String) (c : Client)
    (s1 : GState)
    (h : get_vector_client env osEnv coll url? (runOps env osEnv ops initState) = (.ok c, s1)) :
    c.embeddings.modelName = defaultModel := by
  have h0 : EmbOk initState := by
    intro m hh hm
    simp [initState, alookup] at hm
  have h1 : ClientsOk initState := by
    intro key c' hk
    simp [initState, alookup] at hk
  obtain ⟨hs, hcl⟩ := runOps_inv env osEnv ops initState h0 h1
  exact (get_vector_client_inv env osEnv coll url? _ _ _ hs hcl h).2.2 c rfl

/-- Witness for C10 at the empty history and a fresh collection. -/
theorem registry_clients_default_model_witness :
    xClient.embeddings.modelName = defaultModel :=
  registry_clients_default_model cEnv cOs [] "x" none xClient _ rfl

end Vdb
